import Mathlib

/-!
# Move enumerator of `tempCodeRunnerFile.cpp`

A shallow embedding of `recursiveFunction` (lines 5-12 of the source) and of the
three-peg puzzle its output is meant to solve, followed by the properties of the
enumerator that hold on the code and by evaluations of the code at the inputs
where it departs from the puzzle's solution.

The C++ function recurses on `n - 1` until `n == 0`; the embedding carries a
fuel argument bounding the call depth and returns `none` when it is exhausted.
Peg labels are C++ `int`s that are only copied and formatted, never computed
with, so they are `Int` here; `toString` on `Int` writes the same decimal text
as `to_string` on `int`. The disk count is an `Int` as well: on `n >= 0` the
only arithmetic, `n - 1`, stays within `0..n`, and on `n < 0` the test `n == 0`
never succeeds (`recursiveFunction_negative`).

`main` (lines 13-23) is embedded from the point where `n` has been read: it
yields the lines written to standard output. Its loop counter is a 32-bit
`int`, and the embedding records whether the loop ran to its end or stopped at
the increment of `INT_MAX`. The size of the heap is not part of the model.
-/

namespace Hanoi

/-! ## The source -/

/-- The entry pushed at line 10:
`to_string(start) + " " + to_string(destination)`. -/
def moveEntry (start destination : Int) : String :=
  toString start ++ " " ++ toString destination

/-- Lines 5-12. `t` is the vector passed by reference; the returned list is its
content when the call returns. The first argument bounds the depth of the call
stack: a call that would need a deeper stack yields `none`.

```
void recursiveFunction(int n, vector<string>& t, int start, int intermediate, int destination) {
    if (n == 0) { return; }
    recursiveFunction(n-1, t, start, destination, intermediate);
    t.push_back(to_string(start) + " " + to_string(destination));
    recursiveFunction(n-1, t, intermediate, destination, start);
}
``` -/
def recursiveFunction :
    Nat → Int → List String → Int → Int → Int → Option (List String)
  | 0, _, _, _, _, _ => none
  | fuel + 1, n, t, start, intermediate, destination =>
    if n = 0 then some t
    else
      match recursiveFunction fuel (n - 1) t start destination intermediate with
      | none => none
      | some t1 =>
        recursiveFunction fuel (n - 1) (t1 ++ [moveEntry start destination])
          intermediate destination start

/-- Closed form of what a call on `k` disks appends, read off the three
statements of lines 9-11 in order. Used to reason about `recursiveFunction`,
to which `recursiveFunction_eq_append` ties it. -/
def appended : Nat → Int → Int → Int → List String
  | 0, _, _, _ => []
  | k + 1, start, intermediate, destination =>
    appended k start destination intermediate ++
      moveEntry start destination :: appended k intermediate destination start

/-- Largest value of the 32-bit `int` that counts the loop of lines 19-21. -/
def INT_MAX : Nat := 2147483647

/-- How the printing loop of `main` ends: its condition `i < s.size()` became
false, or `i++` was reached with `i` equal to `INT_MAX`, from where C++ defines
no behaviour. -/
inductive Exit where
  | finished
  | counterOverflow
deriving DecidableEq, Repr

/-- Lines 19-21: `for (int i = 0; i < s.size(); i++) cout << s[i] << endl;`.
The list is the part of `s` from index `i` on, so `i < s.size()` holds when it
is non-empty and `s[i]` is its head. Returns the lines written and how the loop
ended; `i++` is carried out only while `i` is below `INT_MAX`. -/
def printLoop : List String → Nat → List String × Exit
  | [], _ => ([], Exit.finished)
  | e :: rest, i =>
    if i < INT_MAX then
      (e :: (printLoop rest (i + 1)).1, (printLoop rest (i + 1)).2)
    else ([e], Exit.counterOverflow)

/-- Lines 13-23 after `cin >> n`: the lines written to standard output, the
count `s.size()` first, and how the loop ended. `fuel` bounds the depth of the
call stack of `recursiveFunction`, as there. -/
def main (fuel : Nat) (n : Int) : Option (List String × Exit) :=
  match recursiveFunction fuel n [] 1 2 3 with
  | none => none
  | some s => some (toString s.length :: (printLoop s 0).1, (printLoop s 0).2)

/-! ## Reading entries back as moves -/

/-- Value of a decimal digit character. -/
def digitValue (c : Char) : Option Nat :=
  if 48 ≤ c.toNat ∧ c.toNat ≤ 57 then some (c.toNat - 48) else none

def readDigits : List Char → Nat → Option Nat
  | [], acc => some acc
  | c :: cs, acc =>
    match digitValue c with
    | none => none
    | some v => readDigits cs (10 * acc + v)

def readNat : List Char → Option Nat
  | [] => none
  | c :: cs => readDigits (c :: cs) 0

def readInt : List Char → Option Int
  | [] => none
  | c :: cs =>
    if c = '-' then (readNat cs).map (fun v => -(v : Int))
    else (readNat (c :: cs)).map (fun v => (v : Int))

def parseMove (e : String) : Option (Int × Int) :=
  match readInt (e.data.takeWhile (fun c => c != ' ')),
      e.data.dropWhile (fun c => c != ' ') with
  | some a, _ :: rest => (readInt rest).map (fun b => (a, b))
  | _, _ => none

/-- The entry of the same move with both pegs renamed by `f`; text that is not
the entry of a move is left as it is. -/
def relabelEntry (f : Int → Int) (e : String) : String :=
  match parseMove e with
  | some m => moveEntry (f m.1) (f m.2)
  | none => e

/-! ## The puzzle

The source holds no puzzle state; the rules below are those of the three-peg
puzzle: pegs 1, 2, 3, each a stack of disks listed top first, disk sizes as
natural numbers. -/

/-- Configuration of the three pegs, each stack listed from its top. -/
structure Pegs where
  peg1 : List Nat
  peg2 : List Nat
  peg3 : List Nat
deriving DecidableEq, Repr

/-- Stack on the peg labelled `p`; only 1, 2 and 3 label a peg. -/
def Pegs.stack (c : Pegs) (p : Int) : Option (List Nat) :=
  if p = 1 then some c.peg1
  else if p = 2 then some c.peg2
  else if p = 3 then some c.peg3
  else none

/-- Replace the stack on the peg labelled `p`. -/
def Pegs.setStack (c : Pegs) (p : Int) (l : List Nat) : Pegs :=
  if p = 1 then { c with peg1 := l }
  else if p = 2 then { c with peg2 := l }
  else if p = 3 then { c with peg3 := l }
  else c

/-- Take the top disk of peg `m.1` and put it on top of peg `m.2`; no result
when peg `m.1` is empty or a label is not a peg. Sizes are not compared. -/
def applyMove (c : Pegs) (m : Int × Int) : Option Pegs :=
  match c.stack m.1 with
  | some (disk :: below) =>
    match (c.setStack m.1 below).stack m.2 with
    | some onto => some ((c.setStack m.1 below).setStack m.2 (disk :: onto))
    | none => none
  | _ => none

/-- Apply the entries in order, each read back as a move. -/
def replay : List String → Pegs → Option Pegs
  | [], c => some c
  | e :: es, c =>
    match parseMove e with
    | none => none
    | some m =>
      match applyMove c m with
      | none => none
      | some c1 => replay es c1

/-- A move is legal when its source peg is non-empty and the disk on its top is
smaller than the top disk of the target peg, if the target has one. -/
def legalMove (c : Pegs) (m : Int × Int) : Bool :=
  match c.stack m.1, c.stack m.2 with
  | some (_ :: _), some [] => true
  | some (disk :: _), some (top :: _) => decide (disk < top)
  | _, _ => false

/-- Disks `n..1` on peg 1, smallest on top; pegs 2 and 3 empty. -/
def startConfig (n : Nat) : Pegs := ⟨List.range' 1 n, [], []⟩

/-- All `n` disks on peg 3, largest at the bottom; pegs 1 and 2 empty. -/
def solvedConfig (n : Nat) : Pegs := ⟨[], [], List.range' 1 n⟩

/-! ## Entries and moves -/

theorem digitChar_spec : ∀ d, d < 10 →
    digitValue (Nat.digitChar d) = some d ∧ Nat.digitChar d ≠ ' ' ∧ Nat.digitChar d ≠ '-' := by
  decide

theorem toDigitsCore_spec : ∀ (fuel n : Nat) (ds : List Char), n < fuel →
    ∃ L : List Char, Nat.toDigitsCore 10 fuel n ds = L ++ ds ∧
      (∃ c cs, L = c :: cs ∧ c ≠ '-') ∧ (∀ c ∈ L, c ≠ ' ') ∧
      ∀ acc rest, readDigits (L ++ rest) acc = readDigits rest (acc * 10 ^ L.length + n) := by
  intro fuel
  induction fuel with
  | zero => intro n ds h; omega
  | succ fuel ih =>
    intro n ds h
    have hd := digitChar_spec (n % 10) (Nat.mod_lt _ (by decide))
    rw [Nat.toDigitsCore]
    by_cases h0 : n / 10 = 0
    · simp only [h0, if_true]
      refine ⟨[Nat.digitChar (n % 10)], rfl, ⟨_, _, rfl, hd.2.2⟩, ?_, ?_⟩
      · intro c hc
        simp only [List.mem_singleton] at hc
        rw [hc]; exact hd.2.1
      · intro acc rest
        simp only [List.singleton_append, readDigits, hd.1, List.length_singleton, pow_one]
        congr 1
        omega
    · simp only [h0, if_false]
      obtain ⟨L, hL, ⟨c, cs, hc, hcm⟩, hsp, hrd⟩ :=
        ih (n / 10) (Nat.digitChar (n % 10) :: ds) (by omega)
      refine ⟨L ++ [Nat.digitChar (n % 10)], by simp [hL], ⟨c, cs ++ [Nat.digitChar (n % 10)],
        by simp [hc], hcm⟩, ?_, ?_⟩
      · intro x hx
        rcases List.mem_append.mp hx with hx | hx
        · exact hsp x hx
        · simp only [List.mem_singleton] at hx
          rw [hx]; exact hd.2.1
      · intro acc rest
        rw [List.append_assoc, hrd]
        simp only [List.singleton_append, readDigits, hd.1, List.length_append,
          List.length_singleton, pow_succ]
        congr 1
        have := Nat.div_add_mod n 10
        nlinarith [this]


theorem natChars_spec (m : Nat) :
    ∃ L : List Char, (toString m).data = L ∧ (∃ c cs, L = c :: cs ∧ c ≠ '-') ∧
      (∀ c ∈ L, c ≠ ' ') ∧ readNat L = some m := by
  obtain ⟨L, hL, ⟨c, cs, hc, hcm⟩, hsp, hrd⟩ := toDigitsCore_spec (m + 1) m [] (by omega)
  refine ⟨L, ?_, ⟨c, cs, hc, hcm⟩, hsp, ?_⟩
  · show (Nat.repr m).data = L
    simpa [Nat.repr, Nat.toDigits, List.asString] using hL
  · have := hrd 0 []
    simp only [List.append_nil, readDigits, zero_mul, zero_add] at this
    rw [hc] at this ⊢
    exact this

theorem intChars_spec (a : Int) :
    readInt (toString a).data = some a ∧ ∀ c ∈ (toString a).data, c ≠ ' ' := by
  cases a with
  | ofNat m =>
    obtain ⟨L, hL, ⟨c, cs, hc, hcm⟩, hsp, hrd⟩ := natChars_spec m
    have hs : (toString (Int.ofNat m)).data = L := hL
    rw [hs]
    refine ⟨?_, hsp⟩
    subst hc
    simp [readInt, hcm, hrd]
  | negSucc m =>
    obtain ⟨L, hL, -, hsp, hrd⟩ := natChars_spec (m + 1)
    have hs : (toString (Int.negSucc m)).data = '-' :: L := by
      show ("-" ++ toString (m + 1)).data = '-' :: L
      rw [String.data_append, hL]; rfl
    rw [hs]
    constructor
    · simp only [readInt, if_true, hrd, Option.map_some']
      rfl
    · intro c hc
      rcases List.mem_cons.mp hc with hc | hc
      · rw [hc]; decide
      · exact hsp c hc

theorem takeWhile_sep (A B : List Char) (hA : ∀ c ∈ A, c ≠ ' ') :
    (A ++ ' ' :: B).takeWhile (fun c => c != ' ') = A ∧
    (A ++ ' ' :: B).dropWhile (fun c => c != ' ') = ' ' :: B := by
  induction A with
  | nil => simp [List.takeWhile, List.dropWhile]
  | cons x xs ih =>
    have hx : x ≠ ' ' := hA x (List.mem_cons_self _ _)
    have hb : (x != ' ') = true := by simpa using hx
    obtain ⟨h1, h2⟩ := ih (fun c hc => hA c (List.mem_cons_of_mem _ hc))
    rw [List.cons_append, List.takeWhile_cons, List.dropWhile_cons, hb, h1, h2]
    exact ⟨rfl, rfl⟩

theorem moveEntry_data (a b : Int) :
    (moveEntry a b).data = (toString a).data ++ ' ' :: (toString b).data := by
  simp [moveEntry, String.data_append]

/-- Reading an entry back gives the two peg labels it was formatted from. -/
theorem parseMove_moveEntry (a b : Int) : parseMove (moveEntry a b) = some (a, b) := by
  obtain ⟨ha, hsa⟩ := intChars_spec a
  obtain ⟨hb, -⟩ := intChars_spec b
  obtain ⟨h1, h2⟩ := takeWhile_sep (toString a).data (toString b).data hsa
  simp only [parseMove, moveEntry_data, h1, h2, ha, hb, Option.map_some']

theorem moveEntry_injective (a b c d : Int) (h : moveEntry a b = moveEntry c d) :
    a = c ∧ b = d := by
  have := parseMove_moveEntry a b
  rw [h, parseMove_moveEntry] at this
  simpa [eq_comm] using this


/-! ## The enumerator -/

/-- With a call stack deeper than `k`, a call on `k` disks returns, and the
vector then holds its former content followed by `appended k`. -/
theorem recursiveFunction_eq_append : ∀ (k fuel : Nat) (t : List String) (s i d : Int),
    k < fuel → recursiveFunction fuel (k : Int) t s i d = some (t ++ appended k s i d) := by
  intro k
  induction k with
  | zero =>
    intro fuel t s i d h
    obtain ⟨f, rfl⟩ : ∃ f, fuel = f + 1 := ⟨fuel - 1, by omega⟩
    simp [recursiveFunction, appended]
  | succ k ih =>
    intro fuel t s i d h
    obtain ⟨f, rfl⟩ : ∃ f, fuel = f + 1 := ⟨fuel - 1, by omega⟩
    have hne : ((k + 1 : Nat) : Int) ≠ 0 := by omega
    have hpred : ((k + 1 : Nat) : Int) - 1 = (k : Int) := by omega
    rw [recursiveFunction, if_neg hne, hpred, ih f t s d i (by omega)]
    simp only []
    rw [ih f _ i d s (by omega)]
    simp [appended]

/-- The same for a disk count given as a non-negative `int`. -/
theorem recursiveFunction_nonneg (n : Int) (hn : 0 ≤ n) (fuel : Nat) (hfuel : n.toNat < fuel)
    (t : List String) (s i d : Int) :
    recursiveFunction fuel n t s i d = some (t ++ appended n.toNat s i d) := by
  have h := recursiveFunction_eq_append n.toNat fuel t s i d hfuel
  rwa [Int.toNat_of_nonneg hn] at h

/-- On a negative disk count the base case is never reached: no depth of call
stack lets the call return. -/
theorem recursiveFunction_negative : ∀ (fuel : Nat) (n : Int) (t : List String) (s i d : Int),
    n < 0 → recursiveFunction fuel n t s i d = none := by
  intro fuel
  induction fuel with
  | zero => intro n t s i d _; rfl
  | succ f ih =>
    intro n t s i d h
    have hne : n ≠ 0 := by omega
    rw [recursiveFunction, if_neg hne, ih (n - 1) t s d i (by omega)]

theorem appended_length : ∀ (k : Nat) (s i d : Int), (appended k s i d).length = 2 ^ k - 1 := by
  intro k
  induction k with
  | zero => intro s i d; rfl
  | succ k ih =>
    intro s i d
    have hpos : 0 < 2 ^ k := Nat.two_pow_pos k
    simp only [appended, List.length_append, List.length_cons, ih, pow_succ]
    omega

theorem appended_middle (k : Nat) (s i d : Int) :
    (appended (k + 1) s i d)[2 ^ k - 1]? = some (moveEntry s d) := by
  have hlen := appended_length k s d i
  rw [appended, List.getElem?_append_right (by omega), hlen]
  simp

theorem appended_pegs : ∀ (k : Nat) (s i d : Int), s ≠ i → s ≠ d → i ≠ d →
    ∀ e ∈ appended k s i d, ∃ p q : Int, e = moveEntry p q ∧
      (p = s ∨ p = i ∨ p = d) ∧ (q = s ∨ q = i ∨ q = d) ∧ p ≠ q := by
  intro k
  induction k with
  | zero => intro s i d _ _ _ e he; simp [appended] at he
  | succ k ih =>
    intro s i d hsi hsd hid e he
    simp only [appended, List.mem_append, List.mem_cons] at he
    rcases he with he | he | he
    · obtain ⟨p, q, hpq, hp, hq, hne⟩ := ih s d i hsd hsi (Ne.symm hid) e he
      exact ⟨p, q, hpq, by tauto, by tauto, hne⟩
    · exact ⟨s, d, he, Or.inl rfl, Or.inr (Or.inr rfl), hsd⟩
    · obtain ⟨p, q, hpq, hp, hq, hne⟩ := ih i d s hid (Ne.symm hsi) (Ne.symm hsd) e he
      exact ⟨p, q, hpq, by tauto, by tauto, hne⟩

theorem appended_head : ∀ (k : Nat) (s i d : Int),
    (appended (k + 1) s i d).head? =
      some (if (k + 1) % 2 = 1 then moveEntry s d else moveEntry s i) := by
  intro k
  induction k with
  | zero => intro s i d; rfl
  | succ k ih =>
    intro s i d
    have hne : appended (k + 1) s d i ≠ [] := by
      intro h
      have := ih s d i
      rw [h] at this
      simp at this
    rw [appended, List.head?_append_of_ne_nil _ hne, ih s d i]
    rcases Nat.mod_two_eq_zero_or_one (k + 1) with h | h
    · have h2 : (k + 1 + 1) % 2 = 1 := by omega
      simp [h, h2]
    · have h2 : (k + 1 + 1) % 2 = 0 := by omega
      simp [h, h2]

theorem relabelEntry_moveEntry (f : Int → Int) (p q : Int) :
    relabelEntry f (moveEntry p q) = moveEntry (f p) (f q) := by
  simp [relabelEntry, parseMove_moveEntry]

theorem appended_relabel (f : Int → Int) : ∀ (k : Nat) (s i d : Int),
    appended k (f s) (f i) (f d) = (appended k s i d).map (relabelEntry f) := by
  intro k
  induction k with
  | zero => intro s i d; rfl
  | succ k ih =>
    intro s i d
    simp only [appended, List.map_append, List.map_cons, relabelEntry_moveEntry, ih]

theorem appended_six (k : Nat) :
    ∀ e ∈ appended k 1 2 3, e ∈ ["1 2", "1 3", "2 1", "2 3", "3 1", "3 2"] := by
  intro e he
  obtain ⟨p, q, hpq, hp, hq, hne⟩ :=
    appended_pegs k 1 2 3 (by decide) (by decide) (by decide) e he
  subst hpq
  rcases hp with rfl | rfl | rfl <;> rcases hq with rfl | rfl | rfl <;>
    first
      | exact absurd rfl hne
      | decide

theorem appended_entries : ∀ (k : Nat) (s i d : Int),
    ∀ e ∈ appended k s i d, ∃ p q : Int, e = moveEntry p q := by
  intro k
  induction k with
  | zero => intro s i d e he; simp [appended] at he
  | succ k ih =>
    intro s i d e he
    simp only [appended, List.mem_append, List.mem_cons] at he
    rcases he with he | he | he
    · exact ih s d i e he
    · exact ⟨s, d, he⟩
    · exact ih i d s e he

/-- Whatever a call returns, with whatever call stack, is the former content
followed by `appended`, and the disk count was not negative. -/
theorem recursiveFunction_some : ∀ (fuel : Nat) (n : Int) (t r : List String) (s i d : Int),
    recursiveFunction fuel n t s i d = some r →
    0 ≤ n ∧ r = t ++ appended n.toNat s i d := by
  intro fuel
  induction fuel with
  | zero => intro n t r s i d h; simp [recursiveFunction] at h
  | succ f ih =>
    intro n t r s i d h
    rw [recursiveFunction] at h
    by_cases h0 : n = 0
    · subst h0
      simp only [if_true, Option.some.injEq] at h
      subst h
      exact ⟨le_refl _, by simp [appended]⟩
    · rw [if_neg h0] at h
      cases h1 : recursiveFunction f (n - 1) t s d i with
      | none => rw [h1] at h; simp at h
      | some t1 =>
        rw [h1] at h
        simp only [] at h
        obtain ⟨hn1, ht1⟩ := ih _ _ _ _ _ _ h1
        obtain ⟨-, hr⟩ := ih _ _ _ _ _ _ h
        have hk : n.toNat = (n - 1).toNat + 1 := by omega
        refine ⟨by omega, ?_⟩
        rw [hr, ht1, hk, appended]
        simp

/-! ## The printing loop -/

theorem printLoop_finished : ∀ (s : List String) (i : Nat), i + s.length ≤ INT_MAX →
    printLoop s i = (s, Exit.finished) := by
  intro s
  induction s with
  | nil => intro i _; rfl
  | cons e rest ih =>
    intro i h
    simp only [List.length_cons] at h
    have hi : i < INT_MAX := by omega
    rw [printLoop, if_pos hi, ih (i + 1) (by omega)]

theorem printLoop_overflow : ∀ (s : List String) (i : Nat), i ≤ INT_MAX →
    INT_MAX < i + s.length →
    printLoop s i = (s.take (INT_MAX + 1 - i), Exit.counterOverflow) := by
  intro s
  induction s with
  | nil => intro i h1 h2; simp only [List.length_nil] at h2; omega
  | cons e rest ih =>
    intro i h1 h2
    simp only [List.length_cons] at h2
    by_cases hi : i < INT_MAX
    · rw [printLoop, if_pos hi, ih (i + 1) (by omega) (by omega)]
      have : INT_MAX + 1 - i = (INT_MAX + 1 - (i + 1)) + 1 := by omega
      rw [this, List.take_succ_cons]
    · have : INT_MAX + 1 - i = 0 + 1 := by omega
      rw [printLoop, if_neg hi, this, List.take_succ_cons, List.take_zero]

theorem printLoop_prefix : ∀ (s : List String) (i : Nat), (printLoop s i).1 <+: s := by
  intro s
  induction s with
  | nil => intro i; exact List.prefix_refl _
  | cons e rest ih =>
    intro i
    by_cases hi : i < INT_MAX
    · rw [printLoop, if_pos hi]
      exact (List.prefix_cons_inj e).mpr (ih (i + 1))
    · rw [printLoop, if_neg hi]
      exact (List.prefix_cons_inj e).mpr (List.nil_prefix)

theorem appended_32_length : (appended 32 1 2 3).length = 4294967295 := by
  rw [appended_length]; norm_num

theorem printLoop_32 : printLoop (appended 32 1 2 3) 0 =
    ((appended 32 1 2 3).take 2147483648, Exit.counterOverflow) := by
  have h := printLoop_overflow (appended 32 1 2 3) 0 (Nat.zero_le _) (by
    rw [appended_32_length]; simp only [INT_MAX]; omega)
  have hk : INT_MAX + 1 - 0 = 2147483648 := by decide
  rw [hk] at h
  exact h

theorem toString_count_32 : toString (4294967295 : Nat) = "4294967295" := by decide

/-! ## Solving the puzzle -/

/-- C1, evaluated on two disks. The call `recursiveFunction(2, t, 1, 2, 3)` of
`main` returns the entries "1 2", "1 3", "2 1"; replayed from the start
configuration of two disks they leave disk 1 on peg 1 and disk 2 on peg 3,
which is not the solved configuration: the second recursive call (line 11)
carries the smaller disks to `start` instead of `destination`. -/
theorem two_disks_not_solved (fuel : Nat) :
    recursiveFunction (fuel + 3) 2 [] 1 2 3 = some ["1 2", "1 3", "2 1"] ∧
    replay ["1 2", "1 3", "2 1"] (startConfig 2) = some ⟨[1], [], [2]⟩ ∧
    replay ["1 2", "1 3", "2 1"] (startConfig 2) ≠ some (solvedConfig 2) := by
  refine ⟨?_, by decide, by decide⟩
  have h := recursiveFunction_eq_append 2 (fuel + 3) [] 1 2 3 (by omega)
  rw [show ((2 : Nat) : Int) = 2 from rfl] at h
  rw [h]
  decide

/-- C2, evaluated on three disks. The call `recursiveFunction(3, t, 1, 2, 3)`
returns seven entries; after the first four, peg 1 holds disk 3, peg 2 holds
disk 2 and peg 3 holds disk 1, and the fifth entry, "2 3", puts disk 2 on top
of the smaller disk 1: that move is not legal. -/
theorem three_disks_illegal_move (fuel : Nat) :
    recursiveFunction (fuel + 4) 3 [] 1 2 3 =
      some (["1 3", "1 2", "3 1", "1 3"] ++ "2 3" :: ["2 1", "3 2"]) ∧
    replay ["1 3", "1 2", "3 1", "1 3"] (startConfig 3) = some ⟨[3], [2], [1]⟩ ∧
    parseMove "2 3" = some (2, 3) ∧
    legalMove ⟨[3], [2], [1]⟩ (2, 3) = false := by
  refine ⟨?_, by decide, by decide, by decide⟩
  have h := recursiveFunction_eq_append 3 (fuel + 4) [] 1 2 3 (by omega)
  rw [show ((3 : Nat) : Int) = 3 from rfl] at h
  rw [h]
  decide

/-! ## Length -/

/-- C3: for every disk count `n >= 0` and all peg labels, a call with a deep
enough call stack returns, and the vector is then `2^n - 1` entries longer than
before. -/
theorem recursiveFunction_length (n : Int) (hn : 0 ≤ n) (fuel : Nat) (hfuel : n.toNat < fuel)
    (t : List String) (start intermediate destination : Int) :
    ∃ t', recursiveFunction fuel n t start intermediate destination = some t' ∧
      t'.length = t.length + (2 ^ n.toNat - 1) := by
  refine ⟨_, recursiveFunction_nonneg n hn fuel hfuel t start intermediate destination, ?_⟩
  rw [List.length_append, appended_length]

theorem recursiveFunction_length_witness :
    (0 : Int) ≤ 3 ∧ (3 : Int).toNat < 4 ∧
    ∃ t', recursiveFunction 4 3 ["3 1"] 1 2 3 = some t' ∧
      t'.length = ["3 1"].length + (2 ^ (3 : Int).toNat - 1) :=
  ⟨by decide, by decide, recursiveFunction_length 3 (by decide) 4 (by decide) ["3 1"] 1 2 3⟩

/-! ## The recurrence and the small cases -/

/-- C4, evaluated on two disks with pegs (1, 2, 3). The call returns
"1 2", "1 3", "2 1", whereas the sequence for one disk from 1 to 2 with helper
3, then the move (1, 3), then the sequence for one disk from 2 to 3 with helper
1 is "1 2", "1 3", "2 3": the code's second half is the sequence for
`(intermediate, destination, start)`, not for `(intermediate, start,
destination)`. -/
theorem two_disks_recurrence (fuel : Nat) :
    recursiveFunction (fuel + 3) 2 [] 1 2 3 = some ["1 2", "1 3", "2 1"] ∧
    recursiveFunction (fuel + 2) 1 [] 1 3 2 = some ["1 2"] ∧
    recursiveFunction (fuel + 2) 1 [] 2 1 3 = some ["2 3"] ∧
    recursiveFunction (fuel + 2) 1 [] 2 3 1 = some ["2 1"] ∧
    ["1 2", "1 3", "2 1"] ≠ ["1 2"] ++ [moveEntry 1 3] ++ ["2 3"] := by
  have h2 := recursiveFunction_eq_append 2 (fuel + 3) [] 1 2 3 (by omega)
  have ha := recursiveFunction_eq_append 1 (fuel + 2) [] 1 3 2 (by omega)
  have hb := recursiveFunction_eq_append 1 (fuel + 2) [] 2 1 3 (by omega)
  have hc := recursiveFunction_eq_append 1 (fuel + 2) [] 2 3 1 (by omega)
  rw [show ((2 : Nat) : Int) = 2 from rfl] at h2
  rw [show ((1 : Nat) : Int) = 1 from rfl] at ha hb hc
  rw [h2, ha, hb, hc]
  decide

/-- C5, evaluated. For two disks and pegs (1, 2, 3) the call on an empty vector
returns "1 2", "1 3", "2 1", that is the moves (1,2), (1,3), (2,1); its last
entry is not the "2 3" of the sequence (1,2), (1,3), (2,3). -/
theorem two_disks_sequence (fuel : Nat) :
    recursiveFunction (fuel + 3) 2 [] 1 2 3 = some ["1 2", "1 3", "2 1"] ∧
    ["1 2", "1 3", "2 1"].map parseMove = [some (1, 2), some (1, 3), some (2, 1)] ∧
    recursiveFunction (fuel + 3) 2 [] 1 2 3 ≠ some ["1 2", "1 3", "2 3"] := by
  have h := recursiveFunction_eq_append 2 (fuel + 3) [] 1 2 3 (by omega)
  rw [show ((2 : Nat) : Int) = 2 from rfl] at h
  rw [h]
  decide

/-- C6: for one disk and pegs (1, 2, 3) the call on an empty vector returns
exactly the entry "1 3", which reads back as the move (1, 3). -/
theorem one_disk_sequence (fuel : Nat) :
    recursiveFunction (fuel + 2) 1 [] 1 2 3 = some ["1 3"] ∧
    ["1 3"].map parseMove = [some (1, 3)] := by
  have h := recursiveFunction_eq_append 1 (fuel + 2) [] 1 2 3 (by omega)
  rw [show ((1 : Nat) : Int) = 1 from rfl] at h
  rw [h]
  decide

/-- C7: for every `n >= 1` and all peg labels, the call on an empty vector
returns `2^n - 1` entries, and the one at 1-indexed position `2^(n-1)` (index
`2^(n-1) - 1` from zero) is the entry of the move (start, destination). -/
theorem recursiveFunction_middle (n : Int) (hn : 1 ≤ n) (fuel : Nat) (hfuel : n.toNat < fuel)
    (start intermediate destination : Int) :
    ∃ out, recursiveFunction fuel n [] start intermediate destination = some out ∧
      out.length = 2 ^ n.toNat - 1 ∧
      out[2 ^ (n.toNat - 1) - 1]? = some (moveEntry start destination) ∧
      parseMove (moveEntry start destination) = some (start, destination) := by
  refine ⟨_, recursiveFunction_nonneg n (by omega) fuel hfuel [] start intermediate destination,
    ?_, ?_, parseMove_moveEntry _ _⟩
  · rw [List.nil_append, appended_length]
  · obtain ⟨k, hk⟩ : ∃ k, n.toNat = k + 1 := ⟨n.toNat - 1, by omega⟩
    rw [List.nil_append, hk, Nat.add_sub_cancel]
    exact appended_middle k start intermediate destination

theorem recursiveFunction_middle_witness :
    (1 : Int) ≤ 3 ∧ (3 : Int).toNat < 4 ∧
    ∃ out, recursiveFunction 4 3 [] 7 8 9 = some out ∧
      out.length = 2 ^ (3 : Int).toNat - 1 ∧
      out[2 ^ ((3 : Int).toNat - 1) - 1]? = some (moveEntry 7 9) ∧
      parseMove (moveEntry 7 9) = some (7, 9) :=
  ⟨by decide, by decide, recursiveFunction_middle 3 (by decide) 4 (by decide) 7 8 9⟩

/-! ## Pegs named by the entries -/

/-- C8: for every `n >= 0` and pairwise distinct labels `s`, `a`, `d`, every
entry the call appends is the entry of a move `(p, q)`, and reads back as it,
with `p` and `q` among `s`, `a`, `d` and `p` different from `q`. -/
theorem recursiveFunction_pegs (n : Int) (hn : 0 ≤ n) (fuel : Nat) (hfuel : n.toNat < fuel)
    (t : List String) (s a d : Int) (hsa : s ≠ a) (hsd : s ≠ d) (had : a ≠ d) :
    ∃ new, recursiveFunction fuel n t s a d = some (t ++ new) ∧
      ∀ e ∈ new, ∃ p q : Int, e = moveEntry p q ∧ parseMove e = some (p, q) ∧
        (p = s ∨ p = a ∨ p = d) ∧ (q = s ∨ q = a ∨ q = d) ∧ p ≠ q := by
  refine ⟨_, recursiveFunction_nonneg n hn fuel hfuel t s a d, ?_⟩
  intro e he
  obtain ⟨p, q, hpq, hp, hq, hne⟩ := appended_pegs n.toNat s a d hsa hsd had e he
  exact ⟨p, q, hpq, by rw [hpq]; exact parseMove_moveEntry p q, hp, hq, hne⟩

theorem recursiveFunction_pegs_witness :
    (0 : Int) ≤ 2 ∧ (2 : Int).toNat < 3 ∧ (4 : Int) ≠ 5 ∧ (4 : Int) ≠ 6 ∧ (5 : Int) ≠ 6 ∧
    ∃ new, recursiveFunction 3 2 ["6 6"] 4 5 6 = some (["6 6"] ++ new) ∧
      ∀ e ∈ new, ∃ p q : Int, e = moveEntry p q ∧ parseMove e = some (p, q) ∧
        (p = 4 ∨ p = 5 ∨ p = 6) ∧ (q = 4 ∨ q = 5 ∨ q = 6) ∧ p ≠ q :=
  ⟨by decide, by decide, by decide, by decide, by decide,
    recursiveFunction_pegs 2 (by decide) 3 (by decide) ["6 6"] 4 5 6
      (by decide) (by decide) (by decide)⟩

/-! ## Frame -/

/-- C9: for every vector `t`, every `n >= 0` and all peg labels, the call only
appends: the vector afterwards has `t` as a prefix, entry for entry, and all
that is new comes after it. -/
theorem recursiveFunction_appends (n : Int) (hn : 0 ≤ n) (fuel : Nat) (hfuel : n.toNat < fuel)
    (t : List String) (start intermediate destination : Int) :
    ∃ t', recursiveFunction fuel n t start intermediate destination = some t' ∧
      t <+: t' ∧ t'.take t.length = t ∧ ∀ j, j < t.length → t'[j]? = t[j]? := by
  refine ⟨_, recursiveFunction_nonneg n hn fuel hfuel t start intermediate destination,
    List.prefix_append _ _, by simp, ?_⟩
  intro j hj
  exact List.getElem?_append_left hj

theorem recursiveFunction_appends_witness :
    (0 : Int) ≤ 2 ∧ (2 : Int).toNat < 3 ∧
    ∃ t', recursiveFunction 3 2 ["a", "b"] 1 2 3 = some t' ∧
      ["a", "b"] <+: t' ∧ t'.take ["a", "b"].length = ["a", "b"] ∧
      ∀ j, j < ["a", "b"].length → t'[j]? = ["a", "b"][j]? :=
  ⟨by decide, by decide, recursiveFunction_appends 2 (by decide) 3 (by decide) ["a", "b"] 1 2 3⟩

/-- C10: on `n = 0` the call returns at once with the vector unchanged, for
every vector and all peg labels; a call stack of depth one, which leaves room
for no recursive call, is enough. -/
theorem recursiveFunction_zero (fuel : Nat) (t : List String)
    (start intermediate destination : Int) :
    recursiveFunction (fuel + 1) 0 t start intermediate destination = some t ∧
    recursiveFunction 1 0 t start intermediate destination = some t := by
  simp [recursiveFunction]

/-! ## The output of `main` -/

/-- C11, amended: for every disk count `n` with `0 <= n <= 31`, `main` writes
a first line holding the decimal text of `2^n - 1` and after it exactly
`2^n - 1` move lines, the entries of `recursiveFunction(n, s, 1, 2, 3)`, and
its loop runs to the end. -/
theorem main_output (n : Int) (hn : 0 ≤ n) (hn31 : n ≤ 31) (fuel : Nat)
    (hfuel : n.toNat < fuel) :
    ∃ lines, main fuel n = some (toString (2 ^ n.toNat - 1) :: lines, Exit.finished) ∧
      lines.length = 2 ^ n.toNat - 1 ∧
      recursiveFunction fuel n [] 1 2 3 = some lines := by
  have hrun := recursiveFunction_nonneg n hn fuel hfuel [] 1 2 3
  rw [List.nil_append] at hrun
  have hlen := appended_length n.toNat 1 2 3
  have hpow : 2 ^ n.toNat ≤ 2 ^ 31 := Nat.pow_le_pow_right (by decide) (by omega)
  have hloop := printLoop_finished (appended n.toNat 1 2 3) 0 (by
    rw [hlen]; simp only [INT_MAX]; omega)
  refine ⟨appended n.toNat 1 2 3, ?_, hlen, hrun⟩
  simp only [main, hrun, hloop, hlen]

theorem main_output_witness :
    (0 : Int) ≤ 2 ∧ (2 : Int) ≤ 31 ∧ (2 : Int).toNat < 3 ∧
    ∃ lines, main 3 2 = some (toString (2 ^ (2 : Int).toNat - 1) :: lines, Exit.finished) ∧
      lines.length = 2 ^ (2 : Int).toNat - 1 ∧
      recursiveFunction 3 2 [] 1 2 3 = some lines :=
  ⟨by decide, by decide, by decide, main_output 2 (by decide) (by decide) 3 (by decide)⟩

/-- C11 as stated fails on 32 disks: the vector then holds `2^32 - 1` entries,
the count line reads 4294967295, and the `int` counter of the loop reaches
`INT_MAX` after 2147483648 move lines, where `i++` overflows; no run of `main`
on 32 writes the count followed by `2^32 - 1` move lines and ends its loop. -/
theorem main_thirty_two_disks :
    (∃ lines, main 33 32 = some ("4294967295" :: lines, Exit.counterOverflow) ∧
      lines.length = 2147483648) ∧
    ¬ ∃ fuel lines, main fuel 32 = some (toString (2 ^ 32 - 1) :: lines, Exit.finished) ∧
      lines.length = 2 ^ 32 - 1 := by
  constructor
  · have hrun := recursiveFunction_eq_append 32 33 [] 1 2 3 (by omega)
    rw [List.nil_append, show ((32 : Nat) : Int) = 32 from rfl] at hrun
    refine ⟨(appended 32 1 2 3).take 2147483648, ?_, ?_⟩
    · rw [main, hrun]
      simp only []
      rw [printLoop_32, appended_32_length, toString_count_32]
    · rw [List.length_take, appended_32_length]
      decide
  · rintro ⟨fuel, lines, hmain, -⟩
    cases hrun : recursiveFunction fuel 32 [] 1 2 3 with
    | none => rw [main, hrun] at hmain; exact absurd hmain (by simp)
    | some s =>
      obtain ⟨-, hs⟩ := recursiveFunction_some fuel 32 [] s 1 2 3 hrun
      rw [List.nil_append, show (32 : Int).toNat = 32 from rfl] at hs
      subst hs
      rw [main, hrun] at hmain
      simp only [printLoop_32, Option.some.injEq, Prod.mk.injEq] at hmain
      exact absurd hmain.2 (by decide)

/-- C12: for every `n >= 0`, the move lines `main` writes are, in the same
order, the first entries of `recursiveFunction(n, s, 1, 2, 3)` (all of them
when `n <= 31`); each is the decimal text of a peg, one space, the decimal
text of another peg, reads back as that move, and is one of the six strings
"1 2", "1 3", "2 1", "2 3", "3 1", "3 2". -/
theorem main_move_lines (n : Int) (hn : 0 ≤ n) (fuel : Nat) (hfuel : n.toNat < fuel) :
    ∃ s lines ex, recursiveFunction fuel n [] 1 2 3 = some s ∧
      main fuel n = some (toString s.length :: lines, ex) ∧
      lines <+: s ∧ (n ≤ 31 → lines = s) ∧
      ∀ l ∈ lines, l ∈ ["1 2", "1 3", "2 1", "2 3", "3 1", "3 2"] ∧
        ∃ p q : Int, l = toString p ++ " " ++ toString q ∧ parseMove l = some (p, q) := by
  have hrun := recursiveFunction_nonneg n hn fuel hfuel [] 1 2 3
  rw [List.nil_append] at hrun
  have hpre := printLoop_prefix (appended n.toNat 1 2 3) 0
  refine ⟨appended n.toNat 1 2 3, (printLoop (appended n.toNat 1 2 3) 0).1,
    (printLoop (appended n.toNat 1 2 3) 0).2, hrun, by simp only [main, hrun], hpre, ?_, ?_⟩
  · intro h31
    have hpow : 2 ^ n.toNat ≤ 2 ^ 31 := Nat.pow_le_pow_right (by decide) (by omega)
    rw [printLoop_finished (appended n.toNat 1 2 3) 0 (by
      rw [appended_length]; simp only [INT_MAX]; omega)]
  · intro l hl
    have hmem : l ∈ appended n.toNat 1 2 3 := hpre.subset hl
    refine ⟨appended_six n.toNat l hmem, ?_⟩
    obtain ⟨p, q, hpq⟩ := appended_entries n.toNat 1 2 3 l hmem
    exact ⟨p, q, hpq, by rw [hpq]; exact parseMove_moveEntry p q⟩

theorem main_move_lines_witness :
    (0 : Int) ≤ 2 ∧ (2 : Int).toNat < 3 ∧
    ∃ s lines ex, recursiveFunction 3 2 [] 1 2 3 = some s ∧
      main 3 2 = some (toString s.length :: lines, ex) ∧
      lines <+: s ∧ ((2 : Int) ≤ 31 → lines = s) ∧
      ∀ l ∈ lines, l ∈ ["1 2", "1 3", "2 1", "2 3", "3 1", "3 2"] ∧
        ∃ p q : Int, l = toString p ++ " " ++ toString q ∧ parseMove l = some (p, q) :=
  ⟨by decide, by decide, main_move_lines 2 (by decide) 3 (by decide)⟩

/-! ## Termination and determinism -/

/-- C13: for every disk count `n >= 0`, every vector and all peg labels, the
call returns: the recursive calls are on `n - 1`, which stays non-negative and
below `n`, so a call stack of depth `n + 1` is enough, and with any deeper one
the same vector is returned; there is no other way for the call to end. -/
theorem recursiveFunction_terminates (n : Int) (hn : 0 ≤ n) (t : List String)
    (start intermediate destination : Int) :
    ∃ t', recursiveFunction (n.toNat + 1) n t start intermediate destination = some t' ∧
      (∀ fuel, n.toNat < fuel →
        recursiveFunction fuel n t start intermediate destination = some t') ∧
      (0 < n → 0 ≤ n - 1 ∧ (n - 1).toNat < n.toNat) := by
  refine ⟨_, recursiveFunction_nonneg n hn _ (Nat.lt_succ_self _) t start intermediate
    destination, ?_, ?_⟩
  · intro fuel hfuel
    exact recursiveFunction_nonneg n hn fuel hfuel t start intermediate destination
  · intro hpos
    omega

theorem recursiveFunction_terminates_witness :
    (0 : Int) ≤ 3 ∧
    ∃ t', recursiveFunction ((3 : Int).toNat + 1) 3 ["2 1"] 1 2 3 = some t' ∧
      (∀ fuel, (3 : Int).toNat < fuel → recursiveFunction fuel 3 ["2 1"] 1 2 3 = some t') ∧
      ((0 : Int) < 3 → (0 : Int) ≤ 3 - 1 ∧ ((3 : Int) - 1).toNat < (3 : Int).toNat) :=
  ⟨by decide, recursiveFunction_terminates 3 (by decide) ["2 1"] 1 2 3⟩

/-- C14: two calls with the same disk count, vector and peg labels return the
same vector, whatever the call stack available to each; and for `n >= 0` the
entries appended are one fixed list, the same for every vector the caller
supplies. -/
theorem recursiveFunction_deterministic (n : Int) (hn : 0 ≤ n)
    (start intermediate destination : Int) :
    (∀ (fuel1 fuel2 : Nat) (t r1 r2 : List String),
      recursiveFunction fuel1 n t start intermediate destination = some r1 →
      recursiveFunction fuel2 n t start intermediate destination = some r2 → r1 = r2) ∧
    ∃ new, ∀ (fuel : Nat) (t : List String), n.toNat < fuel →
      recursiveFunction fuel n t start intermediate destination = some (t ++ new) := by
  constructor
  · intro fuel1 fuel2 t r1 r2 h1 h2
    rw [(recursiveFunction_some _ _ _ _ _ _ _ h1).2, (recursiveFunction_some _ _ _ _ _ _ _ h2).2]
  · exact ⟨appended n.toNat start intermediate destination, fun fuel t hfuel =>
      recursiveFunction_nonneg n hn fuel hfuel t start intermediate destination⟩

theorem recursiveFunction_deterministic_witness :
    (0 : Int) ≤ 2 ∧
    ((∀ (fuel1 fuel2 : Nat) (t r1 r2 : List String),
      recursiveFunction fuel1 2 t 1 2 3 = some r1 →
      recursiveFunction fuel2 2 t 1 2 3 = some r2 → r1 = r2) ∧
    ∃ new, ∀ (fuel : Nat) (t : List String), (2 : Int).toNat < fuel →
      recursiveFunction fuel 2 t 1 2 3 = some (t ++ new)) :=
  ⟨by decide, recursiveFunction_deterministic 2 (by decide) 1 2 3⟩

/-! ## First move and relabelling -/

/-- C15: for every `n >= 1` and all peg labels, the first entry of the sequence
returned on an empty vector is that of the move (start, destination) when `n`
is odd and that of (start, intermediate) when `n` is even. -/
theorem recursiveFunction_first (n : Int) (hn : 1 ≤ n) (fuel : Nat) (hfuel : n.toNat < fuel)
    (start intermediate destination : Int) :
    ∃ out, recursiveFunction fuel n [] start intermediate destination = some out ∧
      (n % 2 = 1 → out.head? = some (moveEntry start destination)) ∧
      (n % 2 = 0 → out.head? = some (moveEntry start intermediate)) := by
  refine ⟨_, recursiveFunction_nonneg n (by omega) fuel hfuel [] start intermediate destination,
    ?_, ?_⟩
  all_goals
    intro hpar
    obtain ⟨k, hk⟩ : ∃ k, n.toNat = k + 1 := ⟨n.toNat - 1, by omega⟩
    rw [List.nil_append, hk, appended_head]
  · rw [if_pos (by omega)]
  · rw [if_neg (by omega)]

theorem recursiveFunction_first_witness :
    (1 : Int) ≤ 4 ∧ (4 : Int).toNat < 5 ∧
    ∃ out, recursiveFunction 5 4 [] 7 8 9 = some out ∧
      ((4 : Int) % 2 = 1 → out.head? = some (moveEntry 7 9)) ∧
      ((4 : Int) % 2 = 0 → out.head? = some (moveEntry 7 8)) :=
  ⟨by decide, by decide, recursiveFunction_first 4 (by decide) 5 (by decide) 7 8 9⟩

/-- C16: for every `n >= 0`, all peg labels `s`, `a`, `d` and every function
`f` on labels, the sequence returned for `(f s, f a, f d)` is the one returned
for `(s, a, d)` with every entry replaced by the entry of the same move under
`f`: it has the same length, and its entries read back as the moves of the
other with `f` applied to both pegs. -/
theorem recursiveFunction_relabel (n : Int) (hn : 0 ≤ n) (fuel : Nat) (hfuel : n.toNat < fuel)
    (f : Int → Int) (s a d : Int) :
    ∃ out, recursiveFunction fuel n [] s a d = some out ∧
      recursiveFunction fuel n [] (f s) (f a) (f d) = some (out.map (relabelEntry f)) ∧
      (out.map (relabelEntry f)).length = out.length ∧
      (out.map (relabelEntry f)).map parseMove =
        out.map (fun e => (parseMove e).map (fun m => (f m.1, f m.2))) := by
  have h1 := recursiveFunction_nonneg n hn fuel hfuel [] s a d
  have h2 := recursiveFunction_nonneg n hn fuel hfuel [] (f s) (f a) (f d)
  rw [List.nil_append] at h1 h2
  rw [appended_relabel] at h2
  refine ⟨_, h1, h2, List.length_map _ _, ?_⟩
  rw [List.map_map]
  apply List.map_congr_left
  intro e he
  obtain ⟨p, q, hpq⟩ := appended_entries n.toNat s a d e he
  subst hpq
  simp only [Function.comp_apply, relabelEntry_moveEntry, parseMove_moveEntry, Option.map_some']

theorem recursiveFunction_relabel_witness :
    (0 : Int) ≤ 2 ∧ (2 : Int).toNat < 3 ∧
    ∃ out, recursiveFunction 3 2 [] 1 2 3 = some out ∧
      recursiveFunction 3 2 [] ((fun x => 10 * x) 1) ((fun x => 10 * x) 2) ((fun x => 10 * x) 3) =
        some (out.map (relabelEntry (fun x => 10 * x))) ∧
      (out.map (relabelEntry (fun x => 10 * x))).length = out.length ∧
      (out.map (relabelEntry (fun x => 10 * x))).map parseMove =
        out.map (fun e => (parseMove e).map (fun m => ((fun x => 10 * x) m.1,
          (fun x => 10 * x) m.2))) :=
  ⟨by decide, by decide,
    recursiveFunction_relabel 2 (by decide) 3 (by decide) (fun x => 10 * x) 1 2 3⟩

end Hanoi
